import Mathlib

/-!
Shallow embedding of the hydration commit service
(`commitserver/commit/commit.go`): the `Service.Commit` operation, the
secure temp-dir lifecycle, the per-path hydration loop, and the
metadata/README generation.  External collaborators (git client,
credential store, metrics server, filesystem) are modelled by an
environment `Env` that fixes the outcome of each external call; the
operation itself is embedded as a pure function from the environment and
the request to a run result (final result value, event trace, file
writes, remote state).
-/

namespace CommitService

/-- A single hydration destination, mirroring `apiclient.PathDetails`:
relative destination path, rendered manifest documents, and the
human-readable commands that produced them. -/
structure PathDetails where
  Path : String
  Manifests : List String
  Commands : List String
  deriving Repr, DecidableEq

/-- The commit request, mirroring `apiclient.ManifestsRequest` (the fields
`Service.Commit` reads). -/
structure ManifestsRequest where
  RepoUrl : String
  SyncBranch : String
  TargetBranch : String
  DrySha : String
  CommitMessage : String
  Paths : List PathDetails
  deriving Repr, DecidableEq

/-- Mirrors the Go struct `hydratorMetadataFile` with JSON keys
`commands`, `repoURL`, `drySha`.  A Go `nil` slice is modelled as the
empty list. -/
structure hydratorMetadataFile where
  Commands : List String
  RepoURL : String
  DrySHA : String
  deriving Repr, DecidableEq

/-- Content of one file written into the workspace.  Manifest document
format/naming is opaque to the core, so manifests are kept abstract as the
list of documents. -/
inductive FileContent where
  | metadata (m : hydratorMetadataFile)
  | manifests (docs : List String)
  | readme (text : String)
  deriving Repr, DecidableEq

/-- One filesystem write performed by the operation: absolute path
(as components) and the content written.  Writes overwrite: the final
state of a path is its last write (see `finalFile`). -/
structure FileWrite where
  path : List String
  content : FileContent
  deriving Repr, DecidableEq

/-- Externally observable events of one `Commit` call, in order. -/
inductive Event where
  | incPending
  | decPending
  | mkTempDir
  | cleanup (ok : Bool)
  | gitInit
  | gitFetch (revision : String)
  | getUserInfo
  | setAuthor (name email : String)
  | checkoutOrOrphan (branch : String) (detach : Bool)
  | checkoutOrNew (branch fromBranch : String) (detach : Bool)
  | removeContents
  | mkdirAll (p : List String)
  | commitAndPush (branch message : String)
  deriving Repr, DecidableEq

/-- The wrapped errors `Service.Commit` can return, one constructor per
`fmt.Errorf("failed to ...: %w", err)` site, carrying the underlying
error text. -/
inductive CommitError where
  | createTempDir (e : String)
  | createGitClient (e : String)
  | initGitClient (e : String)
  | cloneRepo (e : String)
  | getGithubAppInfo (e : String)
  | setAuthor (e : String)
  | checkoutSyncBranch (e : String)
  | checkoutTargetBranch (e : String)
  | clearRepo (e : String)
  | writeTopLevelMetadata (e : String)
  | createPath (e : String)
  | writeManifests (e : String)
  | writeMetadata (e : String)
  | writeReadme (e : String)
  | commitAndPush (e : String)
  deriving Repr, DecidableEq

/-- Outcomes of the external collaborators for one run: `none` means the
call succeeds, `some e` that it fails with underlying error text `e`.
Per-path filesystem operations are indexed by the position of the path
entry in the request. -/
structure Env where
  uuid : String
  mkTempDirErr : Option String
  cleanupErr : Option String
  newClientErr : Option String
  initErr : Option String
  fetchErr : Option String
  getUserInfoErr : Option String
  authorName : String
  authorEmail : String
  setAuthorErr : Option String
  checkoutOrOrphanErr : Option String
  checkoutOrNewErr : Option String
  removeContentsErr : Option String
  writeRootMetadataErr : Option String
  mkdirErr : Nat → Option String
  writeManifestsErr : Nat → Option String
  writeMetadataErr : Nat → Option String
  writeReadmeErr : Nat → Option String
  commitAndPushErr : Option String

deriving instance DecidableEq for Except

/-- Result of one `Commit` run: the returned value, the ordered event
trace, the ordered list of file writes, the remote repository state after
the run (abstracted as a commit counter), and whether the workspace
directory still exists. -/
structure RunResult where
  result : Except CommitError Unit
  events : List Event
  files : List FileWrite
  remoteAfter : Nat
  workspaceExistsAfter : Bool
  deriving Repr, DecidableEq

/-- `makeSecureTempDir` joins a random UUID under the fixed root
`/tmp/_commit-service`; paths are modelled as component lists. -/
def workspaceRoot (uuid : String) : List String :=
  ["tmp", "_commit-service", uuid]

/-- Splitting on `/` (`splitPathAux acc cs` holds the current component's
characters in reverse in `acc`): `securejoin.SecureJoin` walks the
candidate path component by component, components being the
`/`-separated pieces. -/
def splitPathAux : List Char → List Char → List String
  | acc, [] => [String.mk acc.reverse]
  | acc, c :: cs =>
    if c = '/' then String.mk acc.reverse :: splitPathAux [] cs
    else splitPathAux (c :: acc) cs

/-- The `/`-separated components of a relative path (the empty path has
the single empty component, as in `strings.Split`). -/
def splitPath (s : String) : List String :=
  splitPathAux [] s.data

/-- Lexical core of `securejoin.SecureJoin` on a symlink-free tree (the
workspace is freshly created and empty): `..` pops one component but never
escapes the root, `.` and empty components are skipped.  The library
neutralizes traversal instead of rejecting it, and lexical resolution
never returns an error. -/
def resolveComponents : List String → List String → List String
  | acc, [] => acc
  | acc, c :: rest =>
    if c = "" then resolveComponents acc rest
    else if c = "." then resolveComponents acc rest
    else if c = ".." then resolveComponents acc.dropLast rest
    else resolveComponents (acc ++ [c]) rest

/-- `securejoin.SecureJoin(root, relPath)`: the resolved path, always
inside `root`. -/
def secureJoin (root : List String) (relPath : String) : List String :=
  root ++ resolveComponents [] (splitPath relPath)

/-- The loop preamble `if p.Path == "." { hydratePath = "" }`. -/
def hydrateRelPath (p : PathDetails) : String :=
  if p.Path = "." then "" else p.Path

/-- Rendering of the `{{ range $command := .Commands -}}` block of
`manifestHydrationReadmeTemplate`: each command on its own line. -/
def renderCommands : List String → String
  | [] => ""
  | c :: rest => c ++ "\n" ++ renderCommands rest

/-- Fixed text of `manifestHydrationReadmeTemplate` before the shell code
fence. -/
def readmeIntro : String :=
  "\n# Manifest Hydration\n\nTo hydrate the manifests in this repository, run the following commands:\n\n"

/-- Rendering `manifestHydrationReadmeTemplate` with a metadata record,
following Go text/template semantics (the `-}}` markers trim the
whitespace after the `range` and `end` actions). -/
def renderReadme (m : hydratorMetadataFile) : String :=
  readmeIntro ++ "```shell\n" ++ "\ngit clone " ++ m.RepoURL ++
    "\n# cd into the cloned directory\ngit checkout " ++ m.DrySHA ++ "\n" ++
    renderCommands m.Commands ++ "```"

/-- Modelled from the spec: the hydrator helper's fixed metadata filename
(`WriteMetadata` serializes to a fixed filename inside the target
directory, overwriting any existing file); the helper itself is not part
of the embedded source. -/
def metadataFileName : String := "hydrator.metadata"

/-- Modelled from the spec: the hydrator helper's fixed README filename. -/
def readmeFileName : String := "README.md"

/-- Modelled from the spec: the manifest artifact name is opaque to the
core and caller-determined; a single fixed name stands for it. -/
def manifestFileName : String := "manifest.yaml"

/-- The per-path hydration loop (`for _, p := range r.Paths`), starting at
entry index `idx`: returns the events emitted, the file writes performed,
and the first error (if any).  Writing manifests, metadata and README is
modelled from the spec (the hydrator helper is outside the embedded
source): each write lands in the securely-joined destination directory. -/
def runPaths (env : Env) (root : List String) (r : ManifestsRequest) :
    Nat → List PathDetails → List Event × List FileWrite × Option CommitError
  | _, [] => ([], [], none)
  | idx, p :: rest =>
    let dir := secureJoin root (hydrateRelPath p)
    let evs := [Event.mkdirAll dir]
    match env.mkdirErr idx with
    | some e => (evs, [], some (.createPath e))
    | none =>
      match env.writeManifestsErr idx with
      | some e => (evs, [], some (.writeManifests e))
      | none =>
        let files1 := [FileWrite.mk (dir ++ [manifestFileName]) (.manifests p.Manifests)]
        let md : hydratorMetadataFile :=
          { Commands := p.Commands, RepoURL := r.RepoUrl, DrySHA := r.DrySha }
        match env.writeMetadataErr idx with
        | some e => (evs, files1, some (.writeMetadata e))
        | none =>
          let files2 := files1 ++ [FileWrite.mk (dir ++ [metadataFileName]) (.metadata md)]
          match env.writeReadmeErr idx with
          | some e => (evs, files2, some (.writeReadme e))
          | none =>
            let files3 := files2 ++ [FileWrite.mk (dir ++ [readmeFileName]) (.readme (renderReadme md))]
            let res := runPaths env root r (idx + 1) rest
            (evs ++ res.1, files3 ++ res.2.1, res.2.2)

/-- Exit of `Service.Commit` after the workspace was created: the deferred
cleanup runs (its failure only changes whether the workspace survives,
never the result), then the deferred pending-counter decrement. -/
def exitRun (env : Env) (evs : List Event) (files : List FileWrite)
    (res : Except CommitError Unit) (remote : Nat) : RunResult :=
  { result := res
    events := evs ++ [Event.cleanup env.cleanupErr.isNone, Event.decPending]
    files := files
    remoteAfter := remote
    workspaceExistsAfter := env.cleanupErr.isSome }

/-- `Service.Commit`: the full operation, from the pending-counter
increment to the final return.  `remote` abstracts the remote repository
state (number of pushed commits); only a successful `CommitAndPush`
changes it. -/
def commit (env : Env) (r : ManifestsRequest) (remote : Nat) : RunResult :=
  match env.mkTempDirErr with
  | some e =>
    { result := .error (.createTempDir e)
      events := [Event.incPending, Event.decPending]
      files := []
      remoteAfter := remote
      workspaceExistsAfter := false }
  | none =>
    let root := workspaceRoot env.uuid
    let evs0 := [Event.incPending, Event.mkTempDir]
    match env.newClientErr with
    | some e => exitRun env evs0 [] (.error (.createGitClient e)) remote
    | none =>
      let evs1 := evs0 ++ [Event.gitInit]
      match env.initErr with
      | some e => exitRun env evs1 [] (.error (.initGitClient e)) remote
      | none =>
        let evs2 := evs1 ++ [Event.gitFetch ""]
        match env.fetchErr with
        | some e => exitRun env evs2 [] (.error (.cloneRepo e)) remote
        | none =>
          let evs3 := evs2 ++ [Event.getUserInfo]
          match env.getUserInfoErr with
          | some e => exitRun env evs3 [] (.error (.getGithubAppInfo e)) remote
          | none =>
            let evs4 := evs3 ++ [Event.setAuthor env.authorName env.authorEmail]
            match env.setAuthorErr with
            | some e => exitRun env evs4 [] (.error (.setAuthor e)) remote
            | none =>
              let evs5 := evs4 ++ [Event.checkoutOrOrphan r.SyncBranch false]
              match env.checkoutOrOrphanErr with
              | some e => exitRun env evs5 [] (.error (.checkoutSyncBranch e)) remote
              | none =>
                let evs6 := evs5 ++ [Event.checkoutOrNew r.TargetBranch r.SyncBranch false]
                match env.checkoutOrNewErr with
                | some e => exitRun env evs6 [] (.error (.checkoutTargetBranch e)) remote
                | none =>
                  let evs7 := evs6 ++ [Event.removeContents]
                  match env.removeContentsErr with
                  | some e => exitRun env evs7 [] (.error (.clearRepo e)) remote
                  | none =>
                    match env.writeRootMetadataErr with
                    | some e => exitRun env evs7 [] (.error (.writeTopLevelMetadata e)) remote
                    | none =>
                      let rootMeta := FileWrite.mk (root ++ [metadataFileName])
                        (.metadata { Commands := [], RepoURL := r.RepoUrl, DrySHA := r.DrySha })
                      let loop := runPaths env root r 0 r.Paths
                      let evs8 := evs7 ++ loop.1
                      let files8 := [rootMeta] ++ loop.2.1
                      match loop.2.2 with
                      | some err => exitRun env evs8 files8 (.error err) remote
                      | none =>
                        let evs9 := evs8 ++ [Event.commitAndPush r.TargetBranch r.CommitMessage]
                        match env.commitAndPushErr with
                        | some e => exitRun env evs9 files8 (.error (.commitAndPush e)) remote
                        | none => exitRun env evs9 files8 (.ok ()) (remote + 1)

/-- Final content at path `p` after all writes (last write wins,
`WriteMetadata` overwrites any existing file). -/
def finalFile (files : List FileWrite) (p : List String) : Option FileContent :=
  (files.reverse.find? (fun f => f.path = p)).map (·.content)

/-- The events emitted by a run that reached the content-clearing step:
counter increment, workspace creation, and the branch-synchronization
drive of the git client, in source order. -/
def syncedEvents (env : Env) (r : ManifestsRequest) : List Event :=
  [Event.incPending, Event.mkTempDir, Event.gitInit, Event.gitFetch "", Event.getUserInfo,
   Event.setAuthor env.authorName env.authorEmail,
   Event.checkoutOrOrphan r.SyncBranch false,
   Event.checkoutOrNew r.TargetBranch r.SyncBranch false,
   Event.removeContents]

/-- The top-level metadata write (`h.WriteMetadata(hydratorMetadataFile{DrySHA:
r.DrySha, RepoURL: r.RepoUrl}, "")`): empty commands, at the workspace root. -/
def rootMetaWrite (env : Env) (r : ManifestsRequest) : FileWrite :=
  FileWrite.mk (workspaceRoot env.uuid ++ [metadataFileName])
    (.metadata { Commands := [], RepoURL := r.RepoUrl, DrySHA := r.DrySha })

/-- The same environment with a different cleanup outcome; used to state
that cleanup failure never alters the operation's result. -/
def envWithCleanup (env : Env) (ce : Option String) : Env :=
  { env with cleanupErr := ce }

/-- The events of the branch-synchronization state machine (the git-client
drive between workspace creation and hydration writing). -/
def isSyncStep : Event → Bool
  | Event.gitInit => true
  | Event.gitFetch _ => true
  | Event.setAuthor _ _ => true
  | Event.checkoutOrOrphan _ _ => true
  | Event.checkoutOrNew _ _ _ => true
  | Event.removeContents => true
  | _ => false

/-- The full ordered branch-synchronization sequence of `Service.Commit`:
init, fetch with no ref pin, author from resolved credentials, baseline
checkout (orphan if absent), target checkout (created from baseline if
absent), content clear. -/
def syncSeq (env : Env) (r : ManifestsRequest) : List Event :=
  [Event.gitInit, Event.gitFetch "", Event.setAuthor env.authorName env.authorEmail,
   Event.checkoutOrOrphan r.SyncBranch false,
   Event.checkoutOrNew r.TargetBranch r.SyncBranch false,
   Event.removeContents]

/-- A path component that is not empty, `.`, or `..` — the only kind the
lexical secure join lets into a resolved path. -/
def plainComponent (c : String) : Prop :=
  c ≠ "" ∧ c ≠ "." ∧ c ≠ ".."

instance (c : String) : Decidable (plainComponent c) := by
  unfold plainComponent
  infer_instance

/-- `t` occurs as a contiguous substring of `s`. -/
def strContains (s t : String) : Prop :=
  ∃ a b, s = a ++ (t ++ b)

/-- An environment in which every external call succeeds. -/
def allOkEnv : Env :=
  { uuid := "u", mkTempDirErr := none, cleanupErr := none, newClientErr := none,
    initErr := none, fetchErr := none, getUserInfoErr := none,
    authorName := "Hydrator", authorEmail := "hydrator@example.com", setAuthorErr := none,
    checkoutOrOrphanErr := none, checkoutOrNewErr := none,
    removeContentsErr := none, writeRootMetadataErr := none,
    mkdirErr := fun _ => none, writeManifestsErr := fun _ => none,
    writeMetadataErr := fun _ => none, writeReadmeErr := fun _ => none,
    commitAndPushErr := none }

/-- `allOkEnv` with a failing git-client `Init`. -/
def initFailEnv : Env :=
  { allOkEnv with initErr := some "boom" }

/-- A request whose single hydration path contains traversal segments. -/
def reqTraversal : ManifestsRequest :=
  { RepoUrl := "https://example.com/repo.git", SyncBranch := "main",
    TargetBranch := "env/prod", DrySha := "abc123", CommitMessage := "hydrate",
    Paths := [{ Path := "../../etc", Manifests := ["m1"], Commands := ["kustomize build"] }] }

/-- A hydration path entry naming the workspace root via `.`. -/
def pathDot : PathDetails :=
  { Path := ".", Manifests := ["m1"], Commands := ["kustomize build"] }

/-- A request whose single hydration path is `.` (the workspace root). -/
def reqDot : ManifestsRequest :=
  { reqTraversal with Paths := [pathDot] }

/-- An ordinary subdirectory hydration path entry. -/
def pathFoo : PathDetails :=
  { Path := "apps/foo", Manifests := ["mf"], Commands := ["helm template foo"] }

/-- A second ordinary subdirectory hydration path entry. -/
def pathBar : PathDetails :=
  { Path := "apps/bar", Manifests := ["mb"], Commands := ["helm template bar"] }

/-- A request with two ordinary subdirectory hydration paths. -/
def reqTwo : ManifestsRequest :=
  { reqTraversal with Paths := [pathFoo, pathBar] }

/-- `allOkEnv` with a rejected final commit-and-push. -/
def pushFailEnv : Env :=
  { allOkEnv with commitAndPushErr := some "rejected" }

/-- A request with no hydration paths at all. -/
def reqEmpty : ManifestsRequest :=
  { reqTraversal with Paths := [] }

@[simp] theorem envWithCleanup_uuid (env : Env) (ce : Option String) :
    (envWithCleanup env ce).uuid = env.uuid := rfl

@[simp] theorem envWithCleanup_mkTempDirErr (env : Env) (ce : Option String) :
    (envWithCleanup env ce).mkTempDirErr = env.mkTempDirErr := rfl

@[simp] theorem envWithCleanup_cleanupErr (env : Env) (ce : Option String) :
    (envWithCleanup env ce).cleanupErr = ce := rfl

@[simp] theorem envWithCleanup_newClientErr (env : Env) (ce : Option String) :
    (envWithCleanup env ce).newClientErr = env.newClientErr := rfl

@[simp] theorem envWithCleanup_initErr (env : Env) (ce : Option String) :
    (envWithCleanup env ce).initErr = env.initErr := rfl

@[simp] theorem envWithCleanup_fetchErr (env : Env) (ce : Option String) :
    (envWithCleanup env ce).fetchErr = env.fetchErr := rfl

@[simp] theorem envWithCleanup_getUserInfoErr (env : Env) (ce : Option String) :
    (envWithCleanup env ce).getUserInfoErr = env.getUserInfoErr := rfl

@[simp] theorem envWithCleanup_authorName (env : Env) (ce : Option String) :
    (envWithCleanup env ce).authorName = env.authorName := rfl

@[simp] theorem envWithCleanup_authorEmail (env : Env) (ce : Option String) :
    (envWithCleanup env ce).authorEmail = env.authorEmail := rfl

@[simp] theorem envWithCleanup_setAuthorErr (env : Env) (ce : Option String) :
    (envWithCleanup env ce).setAuthorErr = env.setAuthorErr := rfl

@[simp] theorem envWithCleanup_checkoutOrOrphanErr (env : Env) (ce : Option String) :
    (envWithCleanup env ce).checkoutOrOrphanErr = env.checkoutOrOrphanErr := rfl

@[simp] theorem envWithCleanup_checkoutOrNewErr (env : Env) (ce : Option String) :
    (envWithCleanup env ce).checkoutOrNewErr = env.checkoutOrNewErr := rfl

@[simp] theorem envWithCleanup_removeContentsErr (env : Env) (ce : Option String) :
    (envWithCleanup env ce).removeContentsErr = env.removeContentsErr := rfl

@[simp] theorem envWithCleanup_writeRootMetadataErr (env : Env) (ce : Option String) :
    (envWithCleanup env ce).writeRootMetadataErr = env.writeRootMetadataErr := rfl

@[simp] theorem envWithCleanup_mkdirErr (env : Env) (ce : Option String) :
    (envWithCleanup env ce).mkdirErr = env.mkdirErr := rfl

@[simp] theorem envWithCleanup_writeManifestsErr (env : Env) (ce : Option String) :
    (envWithCleanup env ce).writeManifestsErr = env.writeManifestsErr := rfl

@[simp] theorem envWithCleanup_writeMetadataErr (env : Env) (ce : Option String) :
    (envWithCleanup env ce).writeMetadataErr = env.writeMetadataErr := rfl

@[simp] theorem envWithCleanup_writeReadmeErr (env : Env) (ce : Option String) :
    (envWithCleanup env ce).writeReadmeErr = env.writeReadmeErr := rfl

@[simp] theorem envWithCleanup_commitAndPushErr (env : Env) (ce : Option String) :
    (envWithCleanup env ce).commitAndPushErr = env.commitAndPushErr := rfl

/-- Every component the lexical secure join lets into the resolved path is
a plain name: traversal and no-op components are consumed, never emitted. -/
theorem resolveComponents_plain (l : List String) :
    ∀ acc : List String, (∀ c ∈ acc, plainComponent c) →
      ∀ c ∈ resolveComponents acc l, plainComponent c := by
  induction l with
  | nil =>
    intro acc hacc c hc
    rw [resolveComponents] at hc
    exact hacc c hc
  | cons x rest ih =>
    intro acc hacc c hc
    rw [resolveComponents] at hc
    by_cases hx1 : x = ""
    · rw [if_pos hx1] at hc
      exact ih acc hacc c hc
    · rw [if_neg hx1] at hc
      by_cases hx2 : x = "."
      · rw [if_pos hx2] at hc
        exact ih acc hacc c hc
      · rw [if_neg hx2] at hc
        by_cases hx3 : x = ".."
        · rw [if_pos hx3] at hc
          exact ih acc.dropLast (fun d hd => hacc d (List.dropLast_subset acc hd)) c hc
        · rw [if_neg hx3] at hc
          refine ih (acc ++ [x]) ?_ c hc
          intro d hd
          rcases List.mem_append.1 hd with h | h
          · exact hacc d h
          · rw [List.mem_singleton.1 h]
            exact ⟨hx1, hx2, hx3⟩

/-- The hydration loop emits only `mkdirAll` events. -/
theorem runPaths_events_mkdir (env : Env) (root : List String) (r : ManifestsRequest) :
    ∀ (ps : List PathDetails) (idx : Nat) (e : Event),
      e ∈ (runPaths env root r idx ps).1 → ∃ d, e = Event.mkdirAll d := by
  intro ps
  induction ps with
  | nil =>
    intro idx e he
    simp [runPaths] at he
  | cons p rest ih =>
    intro idx e he
    simp only [runPaths] at he
    rcases h1 : env.mkdirErr idx with _ | e1 <;>
      rcases h2 : env.writeManifestsErr idx with _ | e2 <;>
      rcases h3 : env.writeMetadataErr idx with _ | e3 <;>
      rcases h4 : env.writeReadmeErr idx with _ | e4 <;>
      simp only [h1, h2, h3, h4] at he <;>
      simp at he <;>
      first
        | exact he.elim (fun h => ⟨_, h⟩) (fun h => ih _ e h)
        | exact ⟨_, he⟩

/-- An event that is not a `mkdirAll` never occurs in the hydration loop. -/
theorem runPaths_not_mem (env : Env) (root : List String) (r : ManifestsRequest)
    (ps : List PathDetails) (idx : Nat) (e : Event) (he : ∀ d, e ≠ Event.mkdirAll d) :
    e ∉ (runPaths env root r idx ps).1 := by
  intro hc
  obtain ⟨d, hd⟩ := runPaths_events_mkdir env root r ps idx e hc
  exact he d hd

/-- The hydration loop contributes no branch-synchronization events. -/
theorem runPaths_filter_sync (env : Env) (root : List String) (r : ManifestsRequest) :
    ∀ (ps : List PathDetails) (idx : Nat),
      (runPaths env root r idx ps).1.filter isSyncStep = [] := by
  intro ps
  induction ps with
  | nil =>
    intro idx
    simp [runPaths]
  | cons p rest ih =>
    intro idx
    simp only [runPaths]
    rcases h1 : env.mkdirErr idx with _ | e1 <;>
      rcases h2 : env.writeManifestsErr idx with _ | e2 <;>
      rcases h3 : env.writeMetadataErr idx with _ | e3 <;>
      rcases h4 : env.writeReadmeErr idx with _ | e4 <;>
      simp [isSyncStep, List.filter_append, ih]

/-- Every file the hydration loop writes sits at the securely-joined
destination of one of the processed entries, under one of the three fixed
artifact names. -/
theorem runPaths_files_shape (env : Env) (root : List String) (r : ManifestsRequest) :
    ∀ (ps : List PathDetails) (idx : Nat) (f : FileWrite),
      f ∈ (runPaths env root r idx ps).2.1 →
      ∃ p name, p ∈ ps ∧
        name ∈ ([manifestFileName, metadataFileName, readmeFileName] : List String) ∧
        f.path = root ++ (resolveComponents [] (splitPath (hydrateRelPath p)) ++ [name]) := by
  intro ps
  induction ps with
  | nil =>
    intro idx f hf
    simp [runPaths] at hf
  | cons p rest ih =>
    intro idx f hf
    simp only [runPaths] at hf
    rcases h1 : env.mkdirErr idx with _ | e1 <;>
      rcases h2 : env.writeManifestsErr idx with _ | e2 <;>
      rcases h3 : env.writeMetadataErr idx with _ | e3 <;>
      rcases h4 : env.writeReadmeErr idx with _ | e4 <;>
      simp only [h1, h2, h3, h4] at hf <;>
      simp at hf
    case none.none.none.none =>
      rcases hf with hf | hf | hf | hf
      · exact ⟨p, manifestFileName, by simp, by simp,
          by rw [hf]; simp [secureJoin, List.append_assoc]⟩
      · exact ⟨p, metadataFileName, by simp, by simp,
          by rw [hf]; simp [secureJoin, List.append_assoc]⟩
      · exact ⟨p, readmeFileName, by simp, by simp,
          by rw [hf]; simp [secureJoin, List.append_assoc]⟩
      · obtain ⟨q, name, hq, hname, hpath⟩ := ih (idx + 1) f hf
        exact ⟨q, name, by simp [hq], hname, hpath⟩
    case none.none.none.some =>
      rcases hf with hf | hf
      · exact ⟨p, manifestFileName, by simp, by simp,
          by rw [hf]; simp [secureJoin, List.append_assoc]⟩
      · exact ⟨p, metadataFileName, by simp, by simp,
          by rw [hf]; simp [secureJoin, List.append_assoc]⟩
    case none.none.some.none =>
      exact ⟨p, manifestFileName, by simp, by simp,
        by rw [hf]; simp [secureJoin, List.append_assoc]⟩
    case none.none.some.some =>
      exact ⟨p, manifestFileName, by simp, by simp,
        by rw [hf]; simp [secureJoin, List.append_assoc]⟩

/-- When the hydration loop finishes without error, every entry got its
manifests, its metadata (with exactly that entry's commands and the
request's repo URL and dry SHA), and its README, all written in that
entry's securely-joined destination directory. -/
theorem runPaths_writes (env : Env) (root : List String) (r : ManifestsRequest) :
    ∀ (ps : List PathDetails) (idx : Nat),
      (runPaths env root r idx ps).2.2 = none →
      ∀ p ∈ ps,
        FileWrite.mk (secureJoin root (hydrateRelPath p) ++ [manifestFileName])
            (.manifests p.Manifests) ∈ (runPaths env root r idx ps).2.1 ∧
        FileWrite.mk (secureJoin root (hydrateRelPath p) ++ [metadataFileName])
            (.metadata { Commands := p.Commands, RepoURL := r.RepoUrl, DrySHA := r.DrySha })
          ∈ (runPaths env root r idx ps).2.1 ∧
        FileWrite.mk (secureJoin root (hydrateRelPath p) ++ [readmeFileName])
            (.readme (renderReadme
              { Commands := p.Commands, RepoURL := r.RepoUrl, DrySHA := r.DrySha }))
          ∈ (runPaths env root r idx ps).2.1 := by
  intro ps
  induction ps with
  | nil =>
    intro idx _ p hp
    simp at hp
  | cons q rest ih =>
    intro idx hok p hp
    simp only [runPaths] at hok ⊢
    rcases h1 : env.mkdirErr idx with _ | e1 <;>
      rcases h2 : env.writeManifestsErr idx with _ | e2 <;>
      rcases h3 : env.writeMetadataErr idx with _ | e3 <;>
      rcases h4 : env.writeReadmeErr idx with _ | e4 <;>
      simp only [h1, h2, h3, h4] at hok ⊢ <;>
      (try simp at hok)
    rcases List.mem_cons.1 hp with hq | hrest
    · subst hq
      exact ⟨List.mem_append_left _ (by simp), List.mem_append_left _ (by simp),
        List.mem_append_left _ (by simp)⟩
    · obtain ⟨hm, hd, hr⟩ := ih (idx + 1) hok p hrest
      exact ⟨List.mem_append_right _ hm, List.mem_append_right _ hd,
        List.mem_append_right _ hr⟩

/-- `Service.Commit` returns without error exactly when every external
call on its path succeeds. -/
theorem commit_ok_cond (env : Env) (r : ManifestsRequest) (remote : Nat) :
    (commit env r remote).result = .ok () ↔
      env.mkTempDirErr = none ∧ env.newClientErr = none ∧ env.initErr = none ∧
      env.fetchErr = none ∧ env.getUserInfoErr = none ∧ env.setAuthorErr = none ∧
      env.checkoutOrOrphanErr = none ∧ env.checkoutOrNewErr = none ∧
      env.removeContentsErr = none ∧ env.writeRootMetadataErr = none ∧
      (runPaths env (workspaceRoot env.uuid) r 0 r.Paths).2.2 = none ∧
      env.commitAndPushErr = none := by
  rcases h1 : env.mkTempDirErr with _ | e₁ <;>
    simp only [commit, h1] <;>
    [skip; simp [exitRun]]
  rcases h2 : env.newClientErr with _ | e₂ <;> simp only [h2] <;> [skip; simp [exitRun]]
  rcases h3 : env.initErr with _ | e₃ <;> simp only [h3] <;> [skip; simp [exitRun]]
  rcases h4 : env.fetchErr with _ | e₄ <;> simp only [h4] <;> [skip; simp [exitRun]]
  rcases h5 : env.getUserInfoErr with _ | e₅ <;> simp only [h5] <;> [skip; simp [exitRun]]
  rcases h6 : env.setAuthorErr with _ | e₆ <;> simp only [h6] <;> [skip; simp [exitRun]]
  rcases h7 : env.checkoutOrOrphanErr with _ | e₇ <;> simp only [h7] <;> [skip; simp [exitRun]]
  rcases h8 : env.checkoutOrNewErr with _ | e₈ <;> simp only [h8] <;> [skip; simp [exitRun]]
  rcases h9 : env.removeContentsErr with _ | e₉ <;> simp only [h9] <;> [skip; simp [exitRun]]
  rcases h10 : env.writeRootMetadataErr with _ | e₁₀ <;> simp only [h10] <;> [skip; simp [exitRun]]
  rcases h11 : (runPaths env (workspaceRoot env.uuid) r 0 r.Paths).2.2 with _ | err <;>
    simp only [h11] <;> [skip; simp [exitRun]]
  rcases h12 : env.commitAndPushErr with _ | e₁₂ <;> simp only [h12] <;> simp [exitRun]

/-- On a successful run, the whole run result in closed form: the
branch-synchronization events, the loop's events, the final
commit-and-push, cleanup and counter decrement; the root metadata write
followed by the loop's writes; and one new commit on the remote. -/
theorem commit_ok_eq (env : Env) (r : ManifestsRequest) (remote : Nat)
    (h : (commit env r remote).result = .ok ()) :
    commit env r remote =
      { result := .ok ()
        events := syncedEvents env r ++ ((runPaths env (workspaceRoot env.uuid) r 0 r.Paths).1 ++
          [Event.commitAndPush r.TargetBranch r.CommitMessage,
           Event.cleanup env.cleanupErr.isNone, Event.decPending])
        files := rootMetaWrite env r :: (runPaths env (workspaceRoot env.uuid) r 0 r.Paths).2.1
        remoteAfter := remote + 1
        workspaceExistsAfter := env.cleanupErr.isSome } := by
  obtain ⟨h1, h2, h3, h4, h5, h6, h7, h8, h9, h10, h11, h12⟩ :=
    (commit_ok_cond env r remote).1 h
  simp [commit, exitRun, h1, h2, h3, h4, h5, h6, h7, h8, h9, h10, h11, h12,
    syncedEvents, rootMetaWrite]

@[simp] theorem exitRun_result (env : Env) (evs : List Event) (files : List FileWrite)
    (res : Except CommitError Unit) (remote : Nat) :
    (exitRun env evs files res remote).result = res := rfl

@[simp] theorem exitRun_events (env : Env) (evs : List Event) (files : List FileWrite)
    (res : Except CommitError Unit) (remote : Nat) :
    (exitRun env evs files res remote).events =
      evs ++ [Event.cleanup env.cleanupErr.isNone, Event.decPending] := rfl

@[simp] theorem exitRun_files (env : Env) (evs : List Event) (files : List FileWrite)
    (res : Except CommitError Unit) (remote : Nat) :
    (exitRun env evs files res remote).files = files := rfl

@[simp] theorem exitRun_remoteAfter (env : Env) (evs : List Event) (files : List FileWrite)
    (res : Except CommitError Unit) (remote : Nat) :
    (exitRun env evs files res remote).remoteAfter = remote := rfl

@[simp] theorem exitRun_workspaceExistsAfter (env : Env) (evs : List Event)
    (files : List FileWrite) (res : Except CommitError Unit) (remote : Nat) :
    (exitRun env evs files res remote).workspaceExistsAfter = env.cleanupErr.isSome := rfl

/-- Once the workspace is created, every exit of `Service.Commit` goes
through the deferred cleanup/decrement pair, and the events between the
first two never touch the pending counter. -/
theorem commit_shape_aux (env : Env) (r : ManifestsRequest) (remote : Nat)
    (h : env.mkTempDirErr = none) :
    ∃ rest files res rem,
      commit env r remote =
        exitRun env ([Event.incPending, Event.mkTempDir] ++ rest) files res rem ∧
      Event.incPending ∉ rest ∧ Event.decPending ∉ rest := by
  have hinc : Event.incPending ∉ (runPaths env (workspaceRoot env.uuid) r 0 r.Paths).1 :=
    runPaths_not_mem env (workspaceRoot env.uuid) r r.Paths 0 _ (fun d => by simp)
  have hdec : Event.decPending ∉ (runPaths env (workspaceRoot env.uuid) r 0 r.Paths).1 :=
    runPaths_not_mem env (workspaceRoot env.uuid) r r.Paths 0 _ (fun d => by simp)
  simp only [commit, h]
  rcases h2 : env.newClientErr with _ | e₂ <;> simp only [h2]
  case some => exact ⟨[], _, _, _, rfl, by simp, by simp⟩
  rcases h3 : env.initErr with _ | e₃ <;> simp only [h3]
  case some => exact ⟨[Event.gitInit], _, _, _, rfl, by simp, by simp⟩
  rcases h4 : env.fetchErr with _ | e₄ <;> simp only [h4]
  case some => exact ⟨[Event.gitInit, Event.gitFetch ""], _, _, _, rfl, by simp, by simp⟩
  rcases h5 : env.getUserInfoErr with _ | e₅ <;> simp only [h5]
  case some =>
    exact ⟨[Event.gitInit, Event.gitFetch "", Event.getUserInfo], _, _, _, rfl, by simp, by simp⟩
  rcases h6 : env.setAuthorErr with _ | e₆ <;> simp only [h6]
  case some =>
    exact ⟨[Event.gitInit, Event.gitFetch "", Event.getUserInfo,
      Event.setAuthor env.authorName env.authorEmail], _, _, _, rfl, by simp, by simp⟩
  rcases h7 : env.checkoutOrOrphanErr with _ | e₇ <;> simp only [h7]
  case some =>
    exact ⟨[Event.gitInit, Event.gitFetch "", Event.getUserInfo,
      Event.setAuthor env.authorName env.authorEmail,
      Event.checkoutOrOrphan r.SyncBranch false], _, _, _, rfl, by simp, by simp⟩
  rcases h8 : env.checkoutOrNewErr with _ | e₈ <;> simp only [h8]
  case some =>
    exact ⟨[Event.gitInit, Event.gitFetch "", Event.getUserInfo,
      Event.setAuthor env.authorName env.authorEmail,
      Event.checkoutOrOrphan r.SyncBranch false,
      Event.checkoutOrNew r.TargetBranch r.SyncBranch false], _, _, _, rfl, by simp, by simp⟩
  rcases h9 : env.removeContentsErr with _ | e₉ <;> simp only [h9]
  case some =>
    exact ⟨[Event.gitInit, Event.gitFetch "", Event.getUserInfo,
      Event.setAuthor env.authorName env.authorEmail,
      Event.checkoutOrOrphan r.SyncBranch false,
      Event.checkoutOrNew r.TargetBranch r.SyncBranch false,
      Event.removeContents], _, _, _, rfl, by simp, by simp⟩
  rcases h10 : env.writeRootMetadataErr with _ | e₁₀ <;> simp only [h10]
  case some =>
    exact ⟨[Event.gitInit, Event.gitFetch "", Event.getUserInfo,
      Event.setAuthor env.authorName env.authorEmail,
      Event.checkoutOrOrphan r.SyncBranch false,
      Event.checkoutOrNew r.TargetBranch r.SyncBranch false,
      Event.removeContents], _, _, _, rfl, by simp, by simp⟩
  rcases h11 : (runPaths env (workspaceRoot env.uuid) r 0 r.Paths).2.2 with _ | err <;>
    simp only [h11]
  case some =>
    exact ⟨[Event.gitInit, Event.gitFetch "", Event.getUserInfo,
      Event.setAuthor env.authorName env.authorEmail,
      Event.checkoutOrOrphan r.SyncBranch false,
      Event.checkoutOrNew r.TargetBranch r.SyncBranch false,
      Event.removeContents] ++ (runPaths env (workspaceRoot env.uuid) r 0 r.Paths).1,
      _, _, _, rfl, by simp [hinc], by simp [hdec]⟩
  rcases h12 : env.commitAndPushErr with _ | e₁₂ <;> simp only [h12]
  case some =>
    exact ⟨([Event.gitInit, Event.gitFetch "", Event.getUserInfo,
      Event.setAuthor env.authorName env.authorEmail,
      Event.checkoutOrOrphan r.SyncBranch false,
      Event.checkoutOrNew r.TargetBranch r.SyncBranch false,
      Event.removeContents] ++ (runPaths env (workspaceRoot env.uuid) r 0 r.Paths).1) ++
      [Event.commitAndPush r.TargetBranch r.CommitMessage],
      _, _, _, rfl, by simp [hinc], by simp [hdec]⟩
  exact ⟨([Event.gitInit, Event.gitFetch "", Event.getUserInfo,
    Event.setAuthor env.authorName env.authorEmail,
    Event.checkoutOrOrphan r.SyncBranch false,
    Event.checkoutOrNew r.TargetBranch r.SyncBranch false,
    Event.removeContents] ++ (runPaths env (workspaceRoot env.uuid) r 0 r.Paths).1) ++
    [Event.commitAndPush r.TargetBranch r.CommitMessage],
    _, _, _, rfl, by simp [hinc], by simp [hdec]⟩

/-- The event trace of every run starts with the pending-counter increment,
ends with the decrement, and touches the counter nowhere in between. -/
theorem commit_events_shape (env : Env) (r : ManifestsRequest) (remote : Nat) :
    ∃ mid, (commit env r remote).events = Event.incPending :: (mid ++ [Event.decPending]) ∧
      Event.incPending ∉ mid ∧ Event.decPending ∉ mid := by
  rcases h1 : env.mkTempDirErr with _ | e₁
  · obtain ⟨rest, files, res, rem, heq, hi, hd⟩ := commit_shape_aux env r remote h1
    refine ⟨Event.mkTempDir :: rest ++ [Event.cleanup env.cleanupErr.isNone], ?_, ?_, ?_⟩
    · rw [heq]; simp
    · simp [hi]
    · simp [hd]
  · exact ⟨[], by simp [commit, h1], by simp, by simp⟩

/-- The hydration loop never reads the cleanup outcome. -/
theorem runPaths_envWithCleanup (env : Env) (ce : Option String) (root : List String)
    (r : ManifestsRequest) :
    ∀ (ps : List PathDetails) (idx : Nat),
      runPaths (envWithCleanup env ce) root r idx ps = runPaths env root r idx ps := by
  intro ps
  induction ps with
  | nil => intro idx; rfl
  | cons p rest ih =>
    intro idx
    simp only [runPaths, envWithCleanup_mkdirErr, envWithCleanup_writeManifestsErr,
      envWithCleanup_writeMetadataErr, envWithCleanup_writeReadmeErr, ih]

/-- The result of `Service.Commit` never depends on whether the deferred
workspace removal succeeds. -/
theorem commit_result_envWithCleanup (env : Env) (ce : Option String)
    (r : ManifestsRequest) (remote : Nat) :
    (commit (envWithCleanup env ce) r remote).result = (commit env r remote).result := by
  rcases h1 : env.mkTempDirErr with _ | e₁ <;>
    simp only [commit, envWithCleanup_mkTempDirErr, envWithCleanup_uuid,
      envWithCleanup_newClientErr, envWithCleanup_initErr, envWithCleanup_fetchErr,
      envWithCleanup_getUserInfoErr, envWithCleanup_authorName, envWithCleanup_authorEmail,
      envWithCleanup_setAuthorErr, envWithCleanup_checkoutOrOrphanErr,
      envWithCleanup_checkoutOrNewErr, envWithCleanup_removeContentsErr,
      envWithCleanup_writeRootMetadataErr, envWithCleanup_commitAndPushErr,
      runPaths_envWithCleanup, h1] <;>
    (try rfl)
  rcases h2 : env.newClientErr with _ | e₂ <;> simp only [h2] <;> (try rfl)
  rcases h3 : env.initErr with _ | e₃ <;> simp only [h3] <;> (try rfl)
  rcases h4 : env.fetchErr with _ | e₄ <;> simp only [h4] <;> (try rfl)
  rcases h5 : env.getUserInfoErr with _ | e₅ <;> simp only [h5] <;> (try rfl)
  rcases h6 : env.setAuthorErr with _ | e₆ <;> simp only [h6] <;> (try rfl)
  rcases h7 : env.checkoutOrOrphanErr with _ | e₇ <;> simp only [h7] <;> (try rfl)
  rcases h8 : env.checkoutOrNewErr with _ | e₈ <;> simp only [h8] <;> (try rfl)
  rcases h9 : env.removeContentsErr with _ | e₉ <;> simp only [h9] <;> (try rfl)
  rcases h10 : env.writeRootMetadataErr with _ | e₁₀ <;> simp only [h10] <;> (try rfl)
  rcases h11 : (runPaths env (workspaceRoot env.uuid) r 0 r.Paths).2.2 with _ | err <;>
    simp only [h11] <;> (try rfl)
  rcases h12 : env.commitAndPushErr with _ | e₁₂ <;> simp only [h12] <;> rfl

/-- A run either succeeds, or leaves the remote repository exactly as it
found it. -/
theorem commit_error_remote (env : Env) (r : ManifestsRequest) (remote : Nat) :
    (commit env r remote).result = .ok () ∨ (commit env r remote).remoteAfter = remote := by
  rcases h1 : env.mkTempDirErr with _ | e₁ <;> simp only [commit, h1] <;> [skip; exact Or.inr (by trivial)]
  rcases h2 : env.newClientErr with _ | e₂ <;> simp only [h2] <;> [skip; exact Or.inr (by trivial)]
  rcases h3 : env.initErr with _ | e₃ <;> simp only [h3] <;> [skip; exact Or.inr (by trivial)]
  rcases h4 : env.fetchErr with _ | e₄ <;> simp only [h4] <;> [skip; exact Or.inr (by trivial)]
  rcases h5 : env.getUserInfoErr with _ | e₅ <;> simp only [h5] <;> [skip; exact Or.inr (by trivial)]
  rcases h6 : env.setAuthorErr with _ | e₆ <;> simp only [h6] <;> [skip; exact Or.inr (by trivial)]
  rcases h7 : env.checkoutOrOrphanErr with _ | e₇ <;> simp only [h7] <;> [skip; exact Or.inr (by trivial)]
  rcases h8 : env.checkoutOrNewErr with _ | e₈ <;> simp only [h8] <;> [skip; exact Or.inr (by trivial)]
  rcases h9 : env.removeContentsErr with _ | e₉ <;> simp only [h9] <;> [skip; exact Or.inr (by trivial)]
  rcases h10 : env.writeRootMetadataErr with _ | e₁₀ <;> simp only [h10] <;>
    [skip; exact Or.inr (by trivial)]
  rcases h11 : (runPaths env (workspaceRoot env.uuid) r 0 r.Paths).2.2 with _ | err <;>
    simp only [h11] <;> [skip; exact Or.inr (by trivial)]
  rcases h12 : env.commitAndPushErr with _ | e₁₂ <;> simp only [h12] <;>
    [exact Or.inl (by trivial); exact Or.inr (by trivial)]

/-- Either no commit-and-push is ever attempted, or exactly one is, as the
very last action before cleanup, on the request's target branch with the
request's message. -/
theorem commit_push_aux (env : Env) (r : ManifestsRequest) (remote : Nat) :
    (∀ b m, Event.commitAndPush b m ∉ (commit env r remote).events) ∨
    (∃ pre, (commit env r remote).events =
        pre ++ [Event.commitAndPush r.TargetBranch r.CommitMessage,
                Event.cleanup env.cleanupErr.isNone, Event.decPending] ∧
      ∀ b' m', Event.commitAndPush b' m' ∉ pre) := by
  have hloop : ∀ b m,
      Event.commitAndPush b m ∉ (runPaths env (workspaceRoot env.uuid) r 0 r.Paths).1 :=
    fun b m => runPaths_not_mem env (workspaceRoot env.uuid) r r.Paths 0 _ (fun d => by simp)
  rcases h1 : env.mkTempDirErr with _ | e₁ <;> simp only [commit, h1] <;>
    [skip; exact Or.inl (fun b m => by simp)]
  rcases h2 : env.newClientErr with _ | e₂ <;> simp only [h2] <;>
    [skip; exact Or.inl (fun b m => by simp)]
  rcases h3 : env.initErr with _ | e₃ <;> simp only [h3] <;>
    [skip; exact Or.inl (fun b m => by simp)]
  rcases h4 : env.fetchErr with _ | e₄ <;> simp only [h4] <;>
    [skip; exact Or.inl (fun b m => by simp)]
  rcases h5 : env.getUserInfoErr with _ | e₅ <;> simp only [h5] <;>
    [skip; exact Or.inl (fun b m => by simp)]
  rcases h6 : env.setAuthorErr with _ | e₆ <;> simp only [h6] <;>
    [skip; exact Or.inl (fun b m => by simp)]
  rcases h7 : env.checkoutOrOrphanErr with _ | e₇ <;> simp only [h7] <;>
    [skip; exact Or.inl (fun b m => by simp)]
  rcases h8 : env.checkoutOrNewErr with _ | e₈ <;> simp only [h8] <;>
    [skip; exact Or.inl (fun b m => by simp)]
  rcases h9 : env.removeContentsErr with _ | e₉ <;> simp only [h9] <;>
    [skip; exact Or.inl (fun b m => by simp)]
  rcases h10 : env.writeRootMetadataErr with _ | e₁₀ <;> simp only [h10] <;>
    [skip; exact Or.inl (fun b m => by simp)]
  rcases h11 : (runPaths env (workspaceRoot env.uuid) r 0 r.Paths).2.2 with _ | err <;>
    simp only [h11] <;>
    [skip; exact Or.inl (fun b m => by simp [hloop b m])]
  rcases h12 : env.commitAndPushErr with _ | e₁₂ <;> simp only [h12] <;>
    refine Or.inr ⟨[Event.incPending, Event.mkTempDir, Event.gitInit, Event.gitFetch "",
      Event.getUserInfo, Event.setAuthor env.authorName env.authorEmail,
      Event.checkoutOrOrphan r.SyncBranch false,
      Event.checkoutOrNew r.TargetBranch r.SyncBranch false,
      Event.removeContents] ++ (runPaths env (workspaceRoot env.uuid) r 0 r.Paths).1,
      by simp, fun b' m' => by simp [hloop b' m']⟩

/-- Claim C3: for every request whose workspace was created, every exit path of
the Commit operation runs the deferred workspace removal before the
counter decrement and before returning (so the workspace is gone whenever
removal succeeds), and a failure of the removal itself never replaces or
alters the operation's primary result. -/
theorem c3_workspace_cleanup (env : Env) (r : ManifestsRequest) (remote : Nat)
    (h : env.mkTempDirErr = none) :
    (∃ pre, (commit env r remote).events =
        pre ++ [Event.cleanup env.cleanupErr.isNone, Event.decPending]) ∧
    (env.cleanupErr = none → (commit env r remote).workspaceExistsAfter = false) ∧
    ∀ ce, (commit (envWithCleanup env ce) r remote).result = (commit env r remote).result := by
  obtain ⟨rest, files, res, rem, heq, _, _⟩ := commit_shape_aux env r remote h
  refine ⟨⟨[Event.incPending, Event.mkTempDir] ++ rest, by rw [heq]; simp⟩, ?_, ?_⟩
  · intro hce
    rw [heq]
    simp [hce]
  · intro ce
    exact commit_result_envWithCleanup env ce r remote

/-- Claim C3 witness: on a concrete successful run the trace ends with the
cleanup/decrement pair, the workspace is gone, and a failing cleanup
leaves the result unchanged. -/
theorem c3_workspace_cleanup_witness :
    (∃ pre, (commit allOkEnv reqTwo 0).events =
        pre ++ [Event.cleanup allOkEnv.cleanupErr.isNone, Event.decPending]) ∧
    (commit allOkEnv reqTwo 0).workspaceExistsAfter = false ∧
    (commit (envWithCleanup allOkEnv (some "denied")) reqTwo 0).result =
      (commit allOkEnv reqTwo 0).result :=
  ⟨(c3_workspace_cleanup allOkEnv reqTwo 0 rfl).1,
   (c3_workspace_cleanup allOkEnv reqTwo 0 rfl).2.1 rfl,
   (c3_workspace_cleanup allOkEnv reqTwo 0 rfl).2.2 (some "denied")⟩

/-- Claim C7: every call to the Commit operation emits the pending-counter
increment as its first event and the decrement as its last, exactly once
each, so the counter returns to its pre-call value on every exit path. -/
theorem c7_pending_counter (env : Env) (r : ManifestsRequest) (remote : Nat) (n : Int) :
    (commit env r remote).events.head? = some Event.incPending ∧
    (commit env r remote).events.getLast? = some Event.decPending ∧
    (commit env r remote).events.count Event.incPending = 1 ∧
    (commit env r remote).events.count Event.decPending = 1 ∧
    n + ((commit env r remote).events.count Event.incPending : Int) -
      ((commit env r remote).events.count Event.decPending : Int) = n := by
  obtain ⟨mid, heq, hi, hd⟩ := commit_events_shape env r remote
  rw [heq]
  have hgl : (Event.incPending :: (mid ++ [Event.decPending])).getLast? =
      some Event.decPending := by
    rw [show Event.incPending :: (mid ++ [Event.decPending]) =
      (Event.incPending :: mid) ++ [Event.decPending] by simp]
    exact List.getLast?_concat _
  have hci : (Event.incPending :: (mid ++ [Event.decPending])).count Event.incPending = 1 := by
    simp [List.count_cons, List.count_append, List.count_eq_zero.2 hi]
  have hcd : (Event.incPending :: (mid ++ [Event.decPending])).count Event.decPending = 1 := by
    simp [List.count_cons, List.count_append, List.count_eq_zero.2 hd]
  refine ⟨rfl, hgl, hci, hcd, ?_⟩
  rw [hci, hcd]
  omega

/-- Claim C4: only the final commit-and-push step can change the remote
repository: every failing run leaves the remote state untouched, and any
commit-and-push event is on the request's target branch with the request's
message, occurring exactly once, as the last action before cleanup. -/
theorem c4_remote_all_or_nothing (env : Env) (r : ManifestsRequest) (remote : Nat) :
    (∀ e, (commit env r remote).result = .error e →
      (commit env r remote).remoteAfter = remote) ∧
    ∀ b m, Event.commitAndPush b m ∈ (commit env r remote).events →
      b = r.TargetBranch ∧ m = r.CommitMessage ∧
      ∃ pre, (commit env r remote).events =
          pre ++ [Event.commitAndPush r.TargetBranch r.CommitMessage,
                  Event.cleanup env.cleanupErr.isNone, Event.decPending] ∧
        ∀ b' m', Event.commitAndPush b' m' ∉ pre := by
  constructor
  · intro e he
    rcases commit_error_remote env r remote with hok | hrem
    · rw [he] at hok
      simp at hok
    · exact hrem
  · intro b m hmem
    rcases commit_push_aux env r remote with hnone | ⟨pre, heq, hpre⟩
    · exact absurd hmem (hnone b m)
    · rw [heq] at hmem
      rcases List.mem_append.1 hmem with hp | hlast
      · exact absurd hp (hpre b m)
      · simp at hlast
        exact ⟨hlast.1, hlast.2, pre, heq, hpre⟩

/-- Claim C4 witness: a concrete run with a rejected push fails, leaves the
remote counter unchanged, and its attempted push was the last action
before cleanup, on the target branch with the request's message. -/
theorem c4_remote_all_or_nothing_witness :
    (commit pushFailEnv reqTwo 7).remoteAfter = 7 ∧
    ("env/prod" = reqTwo.TargetBranch ∧ "hydrate" = reqTwo.CommitMessage ∧
      ∃ pre, (commit pushFailEnv reqTwo 7).events =
          pre ++ [Event.commitAndPush reqTwo.TargetBranch reqTwo.CommitMessage,
                  Event.cleanup pushFailEnv.cleanupErr.isNone, Event.decPending] ∧
        ∀ b' m', Event.commitAndPush b' m' ∉ pre) :=
  ⟨(c4_remote_all_or_nothing pushFailEnv reqTwo 7).1
      (CommitError.commitAndPush "rejected") (by decide),
   (c4_remote_all_or_nothing pushFailEnv reqTwo 7).2 "env/prod" "hydrate" (by decide)⟩

/-- Claim C5: on every successful run, each hydration path entry got a metadata
file written in its resolved directory whose commands are exactly that
entry's commands, in order, together with the request's repo URL and dry
SHA. -/
theorem c5_per_path_metadata (env : Env) (r : ManifestsRequest) (remote : Nat)
    (hok : (commit env r remote).result = .ok ()) :
    ∀ p ∈ r.Paths,
      FileWrite.mk (secureJoin (workspaceRoot env.uuid) (hydrateRelPath p) ++ [metadataFileName])
          (.metadata { Commands := p.Commands, RepoURL := r.RepoUrl, DrySHA := r.DrySha })
        ∈ (commit env r remote).files := by
  intro p hp
  have heq := commit_ok_eq env r remote hok
  have h11 := ((commit_ok_cond env r remote).1 hok).2.2.2.2.2.2.2.2.2.2.1
  rw [heq]
  exact List.mem_cons_of_mem _
    ((runPaths_writes env (workspaceRoot env.uuid) r r.Paths 0 h11 p hp).2.1)

/-- Claim C5 witness: on a concrete successful two-path run, the first entry's
metadata file carries exactly its commands. -/
theorem c5_per_path_metadata_witness :
    FileWrite.mk (secureJoin (workspaceRoot allOkEnv.uuid) (hydrateRelPath pathFoo) ++
        [metadataFileName])
      (.metadata { Commands := pathFoo.Commands, RepoURL := reqTwo.RepoUrl,
                   DrySHA := reqTwo.DrySha })
      ∈ (commit allOkEnv reqTwo 0).files :=
  c5_per_path_metadata allOkEnv reqTwo 0 (by decide) pathFoo (by decide)

/-- Claim C6: a hydration path of `.` or the empty string resolves to the
workspace root itself — no subdirectory — and on a successful run that
entry's manifests, metadata file and README all sit directly at the
workspace root. -/
theorem c6_root_destination (env : Env) (r : ManifestsRequest) (remote : Nat) :
    ∀ p ∈ r.Paths, p.Path = "." ∨ p.Path = "" →
      secureJoin (workspaceRoot env.uuid) (hydrateRelPath p) = workspaceRoot env.uuid ∧
      ((commit env r remote).result = .ok () →
        FileWrite.mk (workspaceRoot env.uuid ++ [manifestFileName]) (.manifests p.Manifests)
            ∈ (commit env r remote).files ∧
        FileWrite.mk (workspaceRoot env.uuid ++ [metadataFileName])
            (.metadata { Commands := p.Commands, RepoURL := r.RepoUrl, DrySHA := r.DrySha })
          ∈ (commit env r remote).files ∧
        FileWrite.mk (workspaceRoot env.uuid ++ [readmeFileName])
            (.readme (renderReadme
              { Commands := p.Commands, RepoURL := r.RepoUrl, DrySHA := r.DrySha }))
          ∈ (commit env r remote).files) := by
  intro p hp hdot
  have h0 : hydrateRelPath p = "" := by
    rcases hdot with h | h <;> simp [hydrateRelPath, h]
  have hsj : secureJoin (workspaceRoot env.uuid) (hydrateRelPath p) = workspaceRoot env.uuid := by
    rw [h0]
    show workspaceRoot env.uuid ++ resolveComponents [] (splitPath "") = workspaceRoot env.uuid
    rw [show resolveComponents [] (splitPath "") = [] by decide, List.append_nil]
  refine ⟨hsj, fun hok => ?_⟩
  have heq := commit_ok_eq env r remote hok
  have h11 := ((commit_ok_cond env r remote).1 hok).2.2.2.2.2.2.2.2.2.2.1
  obtain ⟨hm, hd, hr⟩ := runPaths_writes env (workspaceRoot env.uuid) r r.Paths 0 h11 p hp
  rw [hsj] at hm hd hr
  rw [heq]
  exact ⟨List.mem_cons_of_mem _ hm, List.mem_cons_of_mem _ hd, List.mem_cons_of_mem _ hr⟩

/-- Claim C6 witness: on a concrete successful run with the single path `.`, the
destination is the workspace root and all three artifacts sit there. -/
theorem c6_root_destination_witness :
    secureJoin (workspaceRoot allOkEnv.uuid) (hydrateRelPath pathDot) = workspaceRoot allOkEnv.uuid ∧
    (FileWrite.mk (workspaceRoot allOkEnv.uuid ++ [manifestFileName]) (.manifests pathDot.Manifests)
        ∈ (commit allOkEnv reqDot 0).files ∧
      FileWrite.mk (workspaceRoot allOkEnv.uuid ++ [metadataFileName])
          (.metadata { Commands := pathDot.Commands, RepoURL := reqDot.RepoUrl,
                       DrySHA := reqDot.DrySha })
        ∈ (commit allOkEnv reqDot 0).files ∧
      FileWrite.mk (workspaceRoot allOkEnv.uuid ++ [readmeFileName])
          (.readme (renderReadme
            { Commands := pathDot.Commands, RepoURL := reqDot.RepoUrl,
              DrySHA := reqDot.DrySha }))
        ∈ (commit allOkEnv reqDot 0).files) :=
  ⟨(c6_root_destination allOkEnv reqDot 0 pathDot (by decide) (Or.inl rfl)).1,
   (c6_root_destination allOkEnv reqDot 0 pathDot (by decide) (Or.inl rfl)).2 (by decide)⟩

/-- Claim C10: a request with no hydration paths still writes the root-level
metadata file (and nothing else), still performs the final
commit-and-push of the target branch, and the per-path loop runs zero
times (no destination directory is ever created). -/
theorem c10_empty_paths (env : Env) (r : ManifestsRequest) (remote : Nat)
    (hpaths : r.Paths = []) (hok : (commit env r remote).result = .ok ()) :
    (commit env r remote).files =
      [FileWrite.mk (workspaceRoot env.uuid ++ [metadataFileName])
        (.metadata { Commands := [], RepoURL := r.RepoUrl, DrySHA := r.DrySha })] ∧
    Event.commitAndPush r.TargetBranch r.CommitMessage ∈ (commit env r remote).events ∧
    (∀ d, Event.mkdirAll d ∉ (commit env r remote).events) ∧
    (commit env r remote).remoteAfter = remote + 1 := by
  have heq := commit_ok_eq env r remote hok
  rw [heq]
  refine ⟨?_, ?_, ?_, rfl⟩
  · simp [hpaths, runPaths, rootMetaWrite]
  · simp
  · intro d
    simp [hpaths, runPaths, syncedEvents]

/-- Claim C10 witness: a concrete empty-paths run writes exactly the root
metadata file, pushes one commit, and creates no destination directory. -/
theorem c10_empty_paths_witness :
    (commit allOkEnv reqEmpty 5).files =
      [FileWrite.mk (workspaceRoot allOkEnv.uuid ++ [metadataFileName])
        (.metadata { Commands := [], RepoURL := reqEmpty.RepoUrl, DrySHA := reqEmpty.DrySha })] ∧
    Event.commitAndPush reqEmpty.TargetBranch reqEmpty.CommitMessage
      ∈ (commit allOkEnv reqEmpty 5).events ∧
    (∀ d, Event.mkdirAll d ∉ (commit allOkEnv reqEmpty 5).events) ∧
    (commit allOkEnv reqEmpty 5).remoteAfter = 5 + 1 :=
  c10_empty_paths allOkEnv reqEmpty 5 rfl (by decide)

/-- Claim C2 counterexample: the claim fails as stated — on a successful run
whose single hydration path is `.`, the per-path metadata write lands on
the same fixed filename at the workspace root and overwrites the
root-level metadata, so the final root metadata file carries that entry's
commands, not an empty list. -/
theorem c2_root_metadata_counterexample :
    (commit allOkEnv reqDot 0).result = .ok () ∧
    finalFile (commit allOkEnv reqDot 0).files
        (workspaceRoot allOkEnv.uuid ++ [metadataFileName]) =
      some (.metadata { Commands := ["kustomize build"], RepoURL := reqDot.RepoUrl,
                        DrySHA := reqDot.DrySha }) ∧
    finalFile (commit allOkEnv reqDot 0).files
        (workspaceRoot allOkEnv.uuid ++ [metadataFileName]) ≠
      some (.metadata { Commands := [], RepoURL := reqDot.RepoUrl,
                        DrySHA := reqDot.DrySha }) := by
  decide

/-- Claim C2 (amended): on every successful run the root-level metadata write
carries the request's dry SHA and repo URL and an empty commands list; and
provided no hydration path entry resolves to the workspace root itself,
that write is also the final content of the root metadata file. -/
theorem c2_root_metadata (env : Env) (r : ManifestsRequest) (remote : Nat)
    (hok : (commit env r remote).result = .ok ())
    (hroot : ∀ p ∈ r.Paths, resolveComponents [] (splitPath (hydrateRelPath p)) ≠ []) :
    FileWrite.mk (workspaceRoot env.uuid ++ [metadataFileName])
        (.metadata { Commands := [], RepoURL := r.RepoUrl, DrySHA := r.DrySha })
      ∈ (commit env r remote).files ∧
    finalFile (commit env r remote).files (workspaceRoot env.uuid ++ [metadataFileName]) =
      some (.metadata { Commands := [], RepoURL := r.RepoUrl, DrySHA := r.DrySha }) := by
  have heq := commit_ok_eq env r remote hok
  rw [heq]
  constructor
  · exact List.mem_cons_self _ _
  · simp only [finalFile, List.reverse_cons, List.find?_append]
    have hnone : ((runPaths env (workspaceRoot env.uuid) r 0 r.Paths).2.1.reverse.find?
        (fun f => f.path = workspaceRoot env.uuid ++ [metadataFileName])) = none := by
      rw [List.find?_eq_none]
      intro x hx hpx
      obtain ⟨p, name, hp, hname, hpath⟩ :=
        runPaths_files_shape env (workspaceRoot env.uuid) r r.Paths 0 x (List.mem_reverse.1 hx)
      have hxeq : x.path = workspaceRoot env.uuid ++ [metadataFileName] := by
        simpa using hpx
      rw [hpath] at hxeq
      have h2 : resolveComponents [] (splitPath (hydrateRelPath p)) ++ [name] =
          [metadataFileName] := List.append_cancel_left hxeq
      have h3 := congrArg List.length h2
      simp at h3
      exact hroot p hp h3
    rw [hnone]
    simp [rootMetaWrite]

/-- Claim C2 (amended) witness: on a concrete successful run with only
subdirectory paths, the final root metadata file has empty commands and
the request's repo URL and dry SHA. -/
theorem c2_root_metadata_witness :
    FileWrite.mk (workspaceRoot allOkEnv.uuid ++ [metadataFileName])
        (.metadata { Commands := [], RepoURL := reqTwo.RepoUrl, DrySHA := reqTwo.DrySha })
      ∈ (commit allOkEnv reqTwo 0).files ∧
    finalFile (commit allOkEnv reqTwo 0).files (workspaceRoot allOkEnv.uuid ++ [metadataFileName]) =
      some (.metadata { Commands := [], RepoURL := reqTwo.RepoUrl, DrySHA := reqTwo.DrySha }) :=
  c2_root_metadata allOkEnv reqTwo 0 (by decide) (by decide)

/-- Claim C1 counterexample: the claim fails as stated — a request whose path
contains traversal segments does not make the operation fail with a
path-construction error: the secure join clamps `../../etc` to `etc`
inside the workspace and the operation succeeds, all writes staying under
the workspace root. -/
theorem c1_traversal_counterexample :
    (commit allOkEnv reqTraversal 0).result = .ok () ∧
    (commit allOkEnv reqTraversal 0).files.map FileWrite.path =
      [workspaceRoot "u" ++ [metadataFileName],
       workspaceRoot "u" ++ ["etc", manifestFileName],
       workspaceRoot "u" ++ ["etc", metadataFileName],
       workspaceRoot "u" ++ ["etc", readmeFileName]] := by
  decide

/-- Claim C1 (amended): the traversal-safe join neutralizes `..`/`.`/empty
components instead of rejecting them — no path-construction failure
exists — and every file any run ever writes resolves to a strictly
in-workspace location: its path is the workspace root followed by plain
(non-traversal) components. -/
theorem c1_traversal_neutralized (env : Env) (r : ManifestsRequest) (remote : Nat)
    (f : FileWrite) (hf : f ∈ (commit env r remote).files) :
    ∃ dirSuffix name, f.path = workspaceRoot env.uuid ++ (dirSuffix ++ [name]) ∧
      (∀ c ∈ dirSuffix, plainComponent c) ∧ plainComponent name := by
  rcases h1 : env.mkTempDirErr with _ | e₁ <;> simp only [commit, h1, exitRun_files] at hf
  case some => simp at hf
  rcases h2 : env.newClientErr with _ | e₂ <;> simp only [h2, exitRun_files] at hf
  case some => simp at hf
  rcases h3 : env.initErr with _ | e₃ <;> simp only [h3, exitRun_files] at hf
  case some => simp at hf
  rcases h4 : env.fetchErr with _ | e₄ <;> simp only [h4, exitRun_files] at hf
  case some => simp at hf
  rcases h5 : env.getUserInfoErr with _ | e₅ <;> simp only [h5, exitRun_files] at hf
  case some => simp at hf
  rcases h6 : env.setAuthorErr with _ | e₆ <;> simp only [h6, exitRun_files] at hf
  case some => simp at hf
  rcases h7 : env.checkoutOrOrphanErr with _ | e₇ <;> simp only [h7, exitRun_files] at hf
  case some => simp at hf
  rcases h8 : env.checkoutOrNewErr with _ | e₈ <;> simp only [h8, exitRun_files] at hf
  case some => simp at hf
  rcases h9 : env.removeContentsErr with _ | e₉ <;> simp only [h9, exitRun_files] at hf
  case some => simp at hf
  rcases h10 : env.writeRootMetadataErr with _ | e₁₀ <;> simp only [h10, exitRun_files] at hf
  case some => simp at hf
  have hf2 : f = FileWrite.mk (workspaceRoot env.uuid ++ [metadataFileName])
      (.metadata { Commands := [], RepoURL := r.RepoUrl, DrySHA := r.DrySha }) ∨
      f ∈ (runPaths env (workspaceRoot env.uuid) r 0 r.Paths).2.1 := by
    rcases h11 : (runPaths env (workspaceRoot env.uuid) r 0 r.Paths).2.2 with _ | err <;>
      simp only [h11, exitRun_files] at hf
    · rcases h12 : env.commitAndPushErr with _ | e₁₂ <;>
        simp only [h12, exitRun_files] at hf <;>
        exact (List.mem_append.1 hf).imp List.mem_singleton.1 id
    · exact (List.mem_append.1 hf).imp List.mem_singleton.1 id
  rcases hf2 with rfl | hloop
  · exact ⟨[], metadataFileName, by simp, by simp, by decide⟩
  · obtain ⟨p, name, hp, hname, hpath⟩ :=
      runPaths_files_shape env (workspaceRoot env.uuid) r r.Paths 0 f hloop
    refine ⟨resolveComponents [] (splitPath (hydrateRelPath p)), name, hpath,
      fun c hc => resolveComponents_plain _ [] (by simp) c hc, ?_⟩
    simp at hname
    rcases hname with rfl | rfl | rfl <;> decide

/-- Claim C1 (amended) witness: the concrete traversal write from the
counterexample run indeed sits at workspace-root/etc, on plain
components. -/
theorem c1_traversal_neutralized_witness :
    FileWrite.mk (workspaceRoot "u" ++ ["etc", manifestFileName]) (.manifests ["m1"])
      ∈ (commit allOkEnv reqTraversal 0).files ∧
    ∃ dirSuffix name,
      (FileWrite.mk (workspaceRoot "u" ++ ["etc", manifestFileName])
          (.manifests ["m1"])).path = workspaceRoot allOkEnv.uuid ++ (dirSuffix ++ [name]) ∧
      (∀ c ∈ dirSuffix, plainComponent c) ∧ plainComponent name :=
  ⟨by decide, c1_traversal_neutralized allOkEnv reqTraversal 0 _ (by decide)⟩

/-- Claim C8: the git client is driven through the ordered sequence init, fetch
with no ref pin, set-author from resolved credentials, baseline checkout
(orphan if absent), target checkout (from the baseline if absent), then
content clearing; the trace of these steps is always a prefix of that
sequence with no step repeated, and the first failing step aborts the
whole operation with an error wrapped with that step's context. -/
theorem c8_sync_drive (env : Env) (r : ManifestsRequest) (remote : Nat) :
    ((commit env r remote).events.filter isSyncStep <+: syncSeq env r) ∧
    ((commit env r remote).events.filter isSyncStep).Nodup ∧
    (∀ e, env.mkTempDirErr = none → env.newClientErr = none → env.initErr = some e →
      (commit env r remote).result = .error (.initGitClient e) ∧
      (commit env r remote).events.filter isSyncStep = [Event.gitInit]) ∧
    (∀ e, env.mkTempDirErr = none → env.newClientErr = none → env.initErr = none →
        env.fetchErr = some e →
      (commit env r remote).result = .error (.cloneRepo e) ∧
      (commit env r remote).events.filter isSyncStep = [Event.gitInit, Event.gitFetch ""]) ∧
    (∀ e, env.mkTempDirErr = none → env.newClientErr = none → env.initErr = none →
        env.fetchErr = none → env.getUserInfoErr = some e →
      (commit env r remote).result = .error (.getGithubAppInfo e) ∧
      (commit env r remote).events.filter isSyncStep = [Event.gitInit, Event.gitFetch ""]) ∧
    (∀ e, env.mkTempDirErr = none → env.newClientErr = none → env.initErr = none →
        env.fetchErr = none → env.getUserInfoErr = none → env.setAuthorErr = some e →
      (commit env r remote).result = .error (.setAuthor e) ∧
      (commit env r remote).events.filter isSyncStep =
        [Event.gitInit, Event.gitFetch "", Event.setAuthor env.authorName env.authorEmail]) ∧
    (∀ e, env.mkTempDirErr = none → env.newClientErr = none → env.initErr = none →
        env.fetchErr = none → env.getUserInfoErr = none → env.setAuthorErr = none →
        env.checkoutOrOrphanErr = some e →
      (commit env r remote).result = .error (.checkoutSyncBranch e) ∧
      (commit env r remote).events.filter isSyncStep =
        [Event.gitInit, Event.gitFetch "", Event.setAuthor env.authorName env.authorEmail,
         Event.checkoutOrOrphan r.SyncBranch false]) ∧
    (∀ e, env.mkTempDirErr = none → env.newClientErr = none → env.initErr = none →
        env.fetchErr = none → env.getUserInfoErr = none → env.setAuthorErr = none →
        env.checkoutOrOrphanErr = none → env.checkoutOrNewErr = some e →
      (commit env r remote).result = .error (.checkoutTargetBranch e) ∧
      (commit env r remote).events.filter isSyncStep =
        [Event.gitInit, Event.gitFetch "", Event.setAuthor env.authorName env.authorEmail,
         Event.checkoutOrOrphan r.SyncBranch false,
         Event.checkoutOrNew r.TargetBranch r.SyncBranch false]) ∧
    (∀ e, env.mkTempDirErr = none → env.newClientErr = none → env.initErr = none →
        env.fetchErr = none → env.getUserInfoErr = none → env.setAuthorErr = none →
        env.checkoutOrOrphanErr = none → env.checkoutOrNewErr = none →
        env.removeContentsErr = some e →
      (commit env r remote).result = .error (.clearRepo e) ∧
      (commit env r remote).events.filter isSyncStep = syncSeq env r) := by
  have hpre : (commit env r remote).events.filter isSyncStep <+: syncSeq env r := by
    rcases h1 : env.mkTempDirErr with _ | e₁ <;> simp only [commit, h1] <;>
      [skip; simp [isSyncStep, syncSeq]]
    rcases h2 : env.newClientErr with _ | e₂ <;> simp only [h2] <;>
      [skip; simp [isSyncStep, syncSeq]]
    rcases h3 : env.initErr with _ | e₃ <;> simp only [h3] <;>
      [skip; simp [isSyncStep, syncSeq, List.cons_prefix_cons]]
    rcases h4 : env.fetchErr with _ | e₄ <;> simp only [h4] <;>
      [skip; simp [isSyncStep, syncSeq, List.cons_prefix_cons]]
    rcases h5 : env.getUserInfoErr with _ | e₅ <;> simp only [h5] <;>
      [skip; simp [isSyncStep, syncSeq, List.cons_prefix_cons]]
    rcases h6 : env.setAuthorErr with _ | e₆ <;> simp only [h6] <;>
      [skip; simp [isSyncStep, syncSeq, List.cons_prefix_cons]]
    rcases h7 : env.checkoutOrOrphanErr with _ | e₇ <;> simp only [h7] <;>
      [skip; simp [isSyncStep, syncSeq, List.cons_prefix_cons]]
    rcases h8 : env.checkoutOrNewErr with _ | e₈ <;> simp only [h8] <;>
      [skip; simp [isSyncStep, syncSeq, List.cons_prefix_cons]]
    rcases h9 : env.removeContentsErr with _ | e₉ <;> simp only [h9] <;>
      [skip; simp [isSyncStep, syncSeq, List.cons_prefix_cons]]
    rcases h10 : env.writeRootMetadataErr with _ | e₁₀ <;> simp only [h10] <;>
      [skip; simp [isSyncStep, syncSeq, List.cons_prefix_cons]]
    rcases h11 : (runPaths env (workspaceRoot env.uuid) r 0 r.Paths).2.2 with _ | err <;>
      simp only [h11] <;>
      [skip;
       simp [isSyncStep, syncSeq, List.cons_prefix_cons, List.filter_append,
         runPaths_filter_sync]]
    rcases h12 : env.commitAndPushErr with _ | e₁₂ <;> simp only [h12] <;>
      simp [isSyncStep, syncSeq, List.cons_prefix_cons, List.filter_append,
        runPaths_filter_sync]
  have hnodup : ((commit env r remote).events.filter isSyncStep).Nodup :=
    List.Nodup.sublist hpre.sublist (by simp [syncSeq])
  refine ⟨hpre, hnodup, ?_, ?_, ?_, ?_, ?_, ?_, ?_⟩
  · intro e h1 h2 h3
    simp only [commit, h1, h2, h3]
    exact ⟨rfl, by simp [isSyncStep]⟩
  · intro e h1 h2 h3 h4
    simp only [commit, h1, h2, h3, h4]
    exact ⟨rfl, by simp [isSyncStep]⟩
  · intro e h1 h2 h3 h4 h5
    simp only [commit, h1, h2, h3, h4, h5]
    exact ⟨rfl, by simp [isSyncStep]⟩
  · intro e h1 h2 h3 h4 h5 h6
    simp only [commit, h1, h2, h3, h4, h5, h6]
    exact ⟨rfl, by simp [isSyncStep]⟩
  · intro e h1 h2 h3 h4 h5 h6 h7
    simp only [commit, h1, h2, h3, h4, h5, h6, h7]
    exact ⟨rfl, by simp [isSyncStep]⟩
  · intro e h1 h2 h3 h4 h5 h6 h7 h8
    simp only [commit, h1, h2, h3, h4, h5, h6, h7, h8]
    exact ⟨rfl, by simp [isSyncStep]⟩
  · intro e h1 h2 h3 h4 h5 h6 h7 h8 h9
    simp only [commit, h1, h2, h3, h4, h5, h6, h7, h8, h9]
    exact ⟨rfl, by simp [isSyncStep, syncSeq]⟩

/-- Claim C8 witness: a concrete run whose git `Init` fails aborts with the
init-wrapped error after attempting exactly the init step. -/
theorem c8_sync_drive_witness :
    (commit initFailEnv reqTwo 0).result = .error (.initGitClient "boom") ∧
    (commit initFailEnv reqTwo 0).events.filter isSyncStep = [Event.gitInit] :=
  (c8_sync_drive initFailEnv reqTwo 0).2.2.1 "boom" rfl rfl rfl

/-- Substring containment is preserved by prepending. -/
theorem strContains_appL (x s t : String) (h : strContains s t) : strContains (x ++ s) t := by
  obtain ⟨a, b, hab⟩ := h
  exact ⟨x ++ a, b, by rw [hab, String.append_assoc]⟩

/-- In the rendered command block, every command sits on its own line:
it is preceded by a newline (the previous line's terminator) and followed
by its own terminating newline. -/
theorem renderCommands_own_line (cmds : List String) (c : String) (h : c ∈ cmds) :
    strContains ("\n" ++ renderCommands cmds) ("\n" ++ (c ++ "\n")) := by
  induction cmds with
  | nil => cases h
  | cons c₀ rest ih =>
    rcases List.mem_cons.1 h with rfl | hrest
    · refine ⟨"", renderCommands rest, ?_⟩
      show "\n" ++ renderCommands (c :: rest) =
        "" ++ (("\n" ++ (c ++ "\n")) ++ renderCommands rest)
      rw [renderCommands, show ∀ s : String, "" ++ s = s from fun s => rfl]
      simp [String.append_assoc]
    · have h2 := ih hrest
      have heq : "\n" ++ renderCommands (c₀ :: rest) =
          ("\n" ++ c₀) ++ ("\n" ++ renderCommands rest) := by
        rw [renderCommands]
        simp [String.append_assoc]
      rw [heq]
      exact strContains_appL _ _ _ h2

/-- Claim C9: on every successful run, each hydration path entry's README is
the fixed template rendered with that entry's metadata: inside the
shell-fenced code block it contains the git clone command with the
request's repository URL, the git checkout command with the request's dry
SHA, and each of that entry's commands on its own line. -/
theorem c9_readme_content (env : Env) (r : ManifestsRequest) (remote : Nat)
    (p : PathDetails) (hp : p ∈ r.Paths) (hok : (commit env r remote).result = .ok ()) :
    FileWrite.mk (secureJoin (workspaceRoot env.uuid) (hydrateRelPath p) ++ [readmeFileName])
        (.readme (renderReadme
          { Commands := p.Commands, RepoURL := r.RepoUrl, DrySHA := r.DrySha }))
      ∈ (commit env r remote).files ∧
    ∃ body,
      renderReadme { Commands := p.Commands, RepoURL := r.RepoUrl, DrySHA := r.DrySha } =
        readmeIntro ++ ("```shell\n" ++ (body ++ "```")) ∧
      strContains body ("git clone " ++ r.RepoUrl) ∧
      strContains body ("git checkout " ++ r.DrySha) ∧
      ∀ c ∈ p.Commands, strContains body ("\n" ++ (c ++ "\n")) := by
  constructor
  · have heq := commit_ok_eq env r remote hok
    have h11 := ((commit_ok_cond env r remote).1 hok).2.2.2.2.2.2.2.2.2.2.1
    rw [heq]
    exact List.mem_cons_of_mem _
      ((runPaths_writes env (workspaceRoot env.uuid) r r.Paths 0 h11 p hp).2.2)
  · refine ⟨"\ngit clone " ++ (r.RepoUrl ++
      ("\n# cd into the cloned directory\ngit checkout " ++ (r.DrySha ++
        ("\n" ++ renderCommands p.Commands)))), ?_, ?_, ?_, ?_⟩
    · simp only [renderReadme, String.append_assoc]
    · refine ⟨"\n", "\n# cd into the cloned directory\ngit checkout " ++ (r.DrySha ++
        ("\n" ++ renderCommands p.Commands)), ?_⟩
      rw [show ("\ngit clone " : String) = "\n" ++ "git clone " from rfl]
      simp only [String.append_assoc]
    · refine ⟨"\ngit clone " ++ (r.RepoUrl ++ "\n# cd into the cloned directory\n"),
        "\n" ++ renderCommands p.Commands, ?_⟩
      rw [show ("\n# cd into the cloned directory\ngit checkout " : String) =
        "\n# cd into the cloned directory\n" ++ "git checkout " from rfl]
      simp only [String.append_assoc]
    · intro c hc
      have hb : "\ngit clone " ++ (r.RepoUrl ++
          ("\n# cd into the cloned directory\ngit checkout " ++ (r.DrySha ++
            ("\n" ++ renderCommands p.Commands)))) =
          ("\ngit clone " ++ (r.RepoUrl ++
            ("\n# cd into the cloned directory\ngit checkout " ++ r.DrySha))) ++
          ("\n" ++ renderCommands p.Commands) := by
        simp only [String.append_assoc]
      rw [hb]
      exact strContains_appL _ _ _ (renderCommands_own_line p.Commands c hc)

/-- Claim C9 witness: the README of a concrete successful run's first entry,
with its clone/checkout/commands content inside the shell fence. -/
theorem c9_readme_content_witness :
    FileWrite.mk (secureJoin (workspaceRoot allOkEnv.uuid) (hydrateRelPath pathFoo) ++
        [readmeFileName])
      (.readme (renderReadme
        { Commands := pathFoo.Commands, RepoURL := reqTwo.RepoUrl, DrySHA := reqTwo.DrySha }))
      ∈ (commit allOkEnv reqTwo 0).files ∧
    ∃ body,
      renderReadme
          { Commands := pathFoo.Commands, RepoURL := reqTwo.RepoUrl, DrySHA := reqTwo.DrySha } =
        readmeIntro ++ ("```shell\n" ++ (body ++ "```")) ∧
      strContains body ("git clone " ++ reqTwo.RepoUrl) ∧
      strContains body ("git checkout " ++ reqTwo.DrySha) ∧
      ∀ c ∈ pathFoo.Commands, strContains body ("\n" ++ (c ++ "\n")) :=
  c9_readme_content allOkEnv reqTwo 0 pathFoo (by decide) (by decide)

end CommitService
